import Mathlib

/-!
Shallow embedding of the lyrics acquisition, translation and caching core of
the Spotify-Lyrics-Translator repository, together with theorems checking the
natural-language specification against the code.

Embedded modules:
* `src/src/lyrics_models.py`      — data model (`LyricsLine`, `LyricsPayload`)
* `src/src/lyrics_providers.py`   — the three lyrics providers
* `src/src/lyrics_service.py`     — provider-fallback orchestration
* `src/src/lyrics_manager.py`     — translation + bounded cache
* `src/src/translation_clients.py`— the two translation clients
* `src/app.py`                    — `merge_translations_into_current`

Python `int`s are modelled as `Int` (no overflow in CPython); values that may
be either a Python `int` or `str` (the `startTimeMs` fields travelling through
dicts) are modelled by the sum type `PyTime`; code that can raise is modelled
with `Option` / `Except`.
-/

namespace SpotifyLyrics

/-- Python's default `str.strip` / `str.split` whitespace characters. -/
def isPyWhitespace (c : Char) : Bool :=
  c = ' ' || c = '\t' || c = '\n' || c = '\r' || c = '\x0b' || c = '\x0c'

/-- Python `str.strip()`: drop leading and trailing whitespace. -/
def pyStrip (s : String) : String :=
  String.mk (((s.data.dropWhile isPyWhitespace).reverse.dropWhile isPyWhitespace).reverse)

/-- Helper for `pySplitlines`: accumulates the current line (reversed). -/
def splitlinesAux : List Char → List Char → List String
  | [], acc => if acc.isEmpty then [] else [String.mk acc.reverse]
  | '\n' :: rest, acc => String.mk acc.reverse :: splitlinesAux rest []
  | c :: rest, acc => splitlinesAux rest (c :: acc)

/-- Python `str.splitlines()` (newline terminators only): a trailing newline
produces no empty final element, and `"".splitlines() == []`. -/
def pySplitlines (s : String) : List String :=
  splitlinesAux s.data []

/-- Helper for `pySplitNl`: accumulates the current segment (reversed). -/
def splitNlAux : List Char → List Char → List String
  | [], acc => [String.mk acc.reverse]
  | '\n' :: rest, acc => String.mk acc.reverse :: splitNlAux rest []
  | c :: rest, acc => splitNlAux rest (c :: acc)

/-- Python `str.split("\n")`: unlike `splitlines`, keeps trailing empty
segments and `"".split("\n") == [""]`. -/
def pySplitNl (s : String) : List String :=
  splitNlAux s.data []

/-- Decimal digit accumulator for `pyIntOfString`. -/
def digitsToNatAux : List Char → Nat → Option Nat
  | [], acc => some acc
  | c :: rest, acc =>
      if c.isDigit then digitsToNatAux rest (acc * 10 + (c.toNat - '0'.toNat)) else none

/-- Parse a non-empty run of decimal digits. -/
def digitsToNat (l : List Char) : Option Nat :=
  if l.isEmpty then none else digitsToNatAux l 0

/-- Python `int(s)` on a string: surrounding whitespace allowed, optional
sign, then a non-empty digit run; `none` models the raised `ValueError`. -/
def pyIntOfString (s : String) : Option Int :=
  match (pyStrip s).data with
  | '-' :: ds => (digitsToNat ds).map (fun n => -(n : Int))
  | '+' :: ds => (digitsToNat ds).map (fun n => (n : Int))
  | ds => (digitsToNat ds).map (fun n => (n : Int))

/-- A `startTimeMs` value as it travels through Python dicts: either an `int`
or a `str` (both occur, depending on the code path). -/
inductive PyTime where
  | intV (n : Int)
  | strV (s : String)
deriving DecidableEq, Repr

/-- Python `int(x)` applied to a `PyTime`: identity on ints, decimal parse on
strings; `none` models the `ValueError` raised on an unparsable string. -/
def pyInt : PyTime → Option Int
  | .intV n => some n
  | .strV s => pyIntOfString s

/-- Python `str(x)` applied to an `int`-typed `PyTime` (used by the merge's
opposite-typed key); on a `str` it is the identity. -/
def pyStr : PyTime → String
  | .intV n => toString n
  | .strV s => s

/-- `lyrics_models.LyricsLine`: a timed lyric line (`start_time_ms: int`,
`words: str`). -/
structure LyricsLine where
  start_time_ms : Int
  words : String
deriving DecidableEq, Repr

/-- `lyrics_models.LyricsPayload`: the dataclass as declared in
`lyrics_models.py`.  Note that the dataclass declares exactly the three fields
`language`, `lines`, `synced` — it has no `source` field (see the
`lyricsPayloadFields` model below). -/
structure LyricsPayload where
  language : String
  lines : List LyricsLine
  synced : Bool
deriving DecidableEq, Repr

/-- The dict produced by `LyricsLine.to_dict`:
`{"startTimeMs": int(start_time_ms), "words": words}`. -/
structure LineDict where
  startTimeMs : Int
  words : String
deriving DecidableEq, Repr

/-- `LyricsLine.to_dict`. -/
def LyricsLine.to_dict (l : LyricsLine) : LineDict :=
  { startTimeMs := l.start_time_ms, words := l.words }

/-- The dict produced by `LyricsPayload.to_api_dict`:
`{"lyrics": {"language": ..., "lines": [...], "synced": ...}}`. -/
structure ApiDict where
  language : String
  lines : List LineDict
  synced : Bool
deriving DecidableEq, Repr

/-- `LyricsPayload.to_api_dict`. -/
def LyricsPayload.to_api_dict (p : LyricsPayload) : ApiDict :=
  { language := p.language
    lines := p.lines.map LyricsLine.to_dict
    synced := p.synced }

/-! ### The Python dataclass constructor-call model (claim C1)

`lyrics_models.LyricsPayload` is a `@dataclass` whose generated `__init__`
accepts exactly the declared fields as keyword arguments; a call supplying an
unexpected keyword raises `TypeError`.  The three providers' success paths all
call `LyricsPayload(language=..., lines=..., synced=..., source=...)`. -/

/-- The fields declared by the `LyricsPayload` dataclass in
`lyrics_models.py` (lines 24–28): `language`, `lines`, `synced`. -/
def lyricsPayloadFields : List String := ["language", "lines", "synced"]

/-- Python dataclass keyword construction succeeds iff every supplied keyword
is a declared field and every declared field is supplied (none of
`LyricsPayload`'s fields has a default). -/
def dataclassCallOk (fields kwargs : List String) : Bool :=
  kwargs.all (fun k => fields.contains k) && fields.all (fun f => kwargs.contains f)

/-- Keywords of the construction at `lyrics_providers.py` line 65
(`SyricsLyricsProvider.get_lyrics` success path). -/
def syricsPayloadKwargs : List String := ["language", "lines", "synced", "source"]

/-- Keywords of the construction at `lyrics_providers.py` line 124
(`LRCLibLyricsProvider.get_lyrics`, synced branch). -/
def lrclibSyncedPayloadKwargs : List String := ["language", "lines", "synced", "source"]

/-- Keywords of the construction at `lyrics_providers.py` line 132
(`LRCLibLyricsProvider.get_lyrics`, plain branch). -/
def lrclibPlainPayloadKwargs : List String := ["language", "lines", "synced", "source"]

/-- Keywords of the construction at `lyrics_providers.py` line 383
(`UtaNetLyricsProvider.get_lyrics` success path). -/
def utanetPayloadKwargs : List String := ["language", "lines", "synced", "source"]

/-! ### `LRCLibLyricsProvider._plain_to_synthetic` (claim C5)

```python
def _plain_to_synthetic(self, plain_text, duration_ms):
    raw_lines = [ln.strip() for ln in plain_text.splitlines() if ln.strip()]
    if not raw_lines: return []
    count = len(raw_lines)
    spacing = 3000
    if duration_ms > 0:
        spacing = max(1000, duration_ms // max(1, count + 1))
    lines = []; current = 0
    for text in raw_lines:
        lines.append(LyricsLine(start_time_ms=current, words=text))
        current += spacing
    return lines
```
`splitlines` is modelled as splitting on newline; `strip` as `String.trim`;
`duration_ms` is a non-negative millisecond count. -/

/-- The `raw_lines` list comprehension: stripped, non-empty lines. -/
def rawLinesOf (plain_text : String) : List String :=
  ((pySplitlines plain_text).map pyStrip).filter (fun s => s ≠ "")

/-- The synthetic line spacing chosen by `_plain_to_synthetic`. -/
def syntheticSpacing (duration_ms : Int) (count : Nat) : Int :=
  if duration_ms > 0 then max 1000 (duration_ms / (max 1 (count + 1) : Nat)) else 3000

/-- The timestamp-assignment loop shared by both `_plain_to_synthetic`
implementations: each successive segment gets `current`, stepping by
`spacing`. -/
def assignSynthetic (spacing : Int) (current : Int) : List String → List LyricsLine
  | [] => []
  | text :: rest =>
      { start_time_ms := current, words := text } :: assignSynthetic spacing (current + spacing) rest

/-- `LRCLibLyricsProvider._plain_to_synthetic`. -/
def plain_to_synthetic (plain_text : String) (duration_ms : Int) : List LyricsLine :=
  let raw_lines := rawLinesOf plain_text
  if raw_lines = [] then []
  else assignSynthetic (syntheticSpacing duration_ms raw_lines.length) 0 raw_lines

/-! ### Generic key-ordered sorting

Python's `list.sort(key=...)` is a stable sort by an integer key.  Any two
stable sorts agree, so it is modelled by `List.insertionSort` on the keyed
relation `keyLE` (Mathlib's insertion sort inserts a later element *after*
equal-key earlier elements, i.e. it is stable; proved in the theorem
section). -/

/-- The relation `key a ≤ key b` used by every `list.sort(key=...)` call. -/
def keyLE {α : Type} (key : α → Int) (a b : α) : Prop := key a ≤ key b

instance {α : Type} (key : α → Int) : DecidableRel (keyLE key) :=
  fun a b => inferInstanceAs (Decidable (key a ≤ key b))

instance {α : Type} (key : α → Int) : IsTotal α (keyLE key) :=
  ⟨fun a b => Int.le_total (key a) (key b)⟩

instance {α : Type} (key : α → Int) : IsTrans α (keyLE key) :=
  ⟨fun _ _ _ h1 h2 => le_trans h1 h2⟩

/-- Boolean sortedness check by a key (used in decidable counterexamples). -/
def sortedByKey {α : Type} (key : α → Int) : List α → Bool
  | [] => true
  | [_] => true
  | a :: b :: t => decide (key a ≤ key b) && sortedByKey key (b :: t)

/-! ### `lyrics_service.LyricsService.get_lyrics` (claims C2, C3)

The service iterates providers in order; per provider it makes
`1 + len(delays)` attempts (`delays = [0.0, 0.15]`), special-cased to 1 when
`'UtaNet' in provider.__class__.__name__`.  Each attempt runs the provider
under a timeout; `TimeoutError` and any other exception are caught and the
attempt's payload set to `None`.  The first attempt whose payload is non-None
with a non-empty `lines` returns `payload.to_api_dict()` immediately.

A provider is modelled by its class name plus a function from the attempt
index to the attempt's outcome; an exception, a timeout and a `None` return
are distinct outcomes so that the catch-all semantics is part of the model. -/

/-- Python `needle in haystack` substring test (on char lists). -/
def containsSub : List Char → List Char → Bool
  | [], needle => needle.isEmpty
  | c :: t, needle => needle.isPrefixOf (c :: t) || containsSub t needle

/-- Python `needle in haystack` substring test on strings. -/
def strContainsSub (hay needle : String) : Bool :=
  containsSub hay.data needle.data

/-- What a single provider attempt can do: return a payload, return `None`,
raise an exception, or exceed the attempt timeout. -/
inductive AttemptOutcome where
  | ok (p : LyricsPayload)
  | returnedNone
  | raised
  | timedOut
deriving DecidableEq, Repr

/-- The `try/except` around `fut.result(timeout=...)`: `TimeoutError` and any
other exception leave `payload = None`. -/
def caughtPayload : AttemptOutcome → Option LyricsPayload
  | .ok p => some p
  | .returnedNone => none
  | .raised => none
  | .timedOut => none

/-- Python truthiness of `payload and payload.lines`: a payload object is
truthy, a list is truthy iff non-empty. -/
def payloadHasLines : Option LyricsPayload → Bool
  | some p => !p.lines.isEmpty
  | none => false

/-- `True` when the attempt produces no usable payload (`None`, raised,
timed out, or a payload with an empty `lines`); the negation of the
`if payload and payload.lines:` test. -/
def attemptFailsB (o : AttemptOutcome) : Bool :=
  !payloadHasLines (caughtPayload o)

/-- A provider as the service sees it: its class name and the outcome of its
`get_lyrics` call on each attempt. -/
structure ProviderModel where
  name : String
  behavior : Nat → AttemptOutcome

/-- `delays = [0.0, 0.15]` (seconds, here in ms); only its length matters to
the attempt count. -/
def retryDelaysMs : List Nat := [0, 150]

/-- `attempts = 1 + len(delays)`, special-cased to 1 when `'UtaNet' in
provider.__class__.__name__`. -/
def attemptsFor (name : String) : Nat :=
  if strContainsSub name "UtaNet" then 1 else 1 + retryDelaysMs.length

/-- The per-provider attempt loop (`for i in range(attempts)`); returns the
first usable payload (if any) together with the list of attempt indices
actually performed, in order. -/
def runProviderAttempts (beh : Nat → AttemptOutcome) : Nat → Nat → Option LyricsPayload × List Nat
  | 0, _ => (none, [])
  | fuel + 1, i =>
      if payloadHasLines (caughtPayload (beh i)) then (caughtPayload (beh i), [i])
      else
        let r := runProviderAttempts beh fuel (i + 1)
        (r.1, i :: r.2)

/-- The provider loop of `LyricsService.get_lyrics`, carrying the index of
the current provider; returns the service result together with the trace of
(provider index, attempt index) pairs performed, in order. -/
def serviceLoop : List ProviderModel → Nat → Option ApiDict × List (Nat × Nat)
  | [], _ => (none, [])
  | prov :: rest, k =>
      let r := runProviderAttempts prov.behavior (attemptsFor prov.name) 0
      let tHere := r.2.map (fun i => (k, i))
      match r.1 with
      | some p => (some p.to_api_dict, tHere)
      | none =>
          let r2 := serviceLoop rest (k + 1)
          (r2.1, tHere ++ r2.2)

/-- `LyricsService.get_lyrics`. -/
def service_get_lyrics (providers : List ProviderModel) : Option ApiDict :=
  (serviceLoop providers 0).1

/-- The attempts the service actually performs, as (provider index, attempt
index) pairs in execution order. -/
def serviceTrace (providers : List ProviderModel) : List (Nat × Nat) :=
  (serviceLoop providers 0).2

/-! ### `SyricsLyricsProvider.get_lyrics` line parsing (claims C1, C4)

```python
for item in lines_raw:
    try:
        start_ms = int(item.get('startTimeMs', 0))
        words = item.get('words', '')
        if words is None: words = ''
        lines.append(LyricsLine(start_time_ms=start_ms, words=words))
    except Exception: continue
if not lines: return None
return LyricsPayload(language=language, lines=lines, synced=True, source="Spotify")
```
No sorting is applied: the response's line order is preserved.  (The
`source="Spotify"` keyword is rejected by the dataclass — claim C1 — so the
payload value modelled here is the one the call site describes.) -/

/-- One element of the Spotify response's `lyrics.lines` list: `none` fields
model an absent key (and, for `words`, also an explicit `None`). -/
structure SyricsLineItem where
  startTimeMs : Option PyTime
  words : Option String
deriving DecidableEq, Repr

/-- The per-item `try` body: `int(item.get('startTimeMs', 0))` (a raised
`ValueError` skips the item via `continue`), `words or ''` normalisation. -/
def parseSyricsLine (item : SyricsLineItem) : Option LyricsLine :=
  (pyInt (item.startTimeMs.getD (.intV 0))).map fun t =>
    { start_time_ms := t, words := item.words.getD "" }

/-- Python `x or default` on an optional string (`None` and `''` are falsy). -/
def pyOrStr (v : Option String) (dflt : String) : String :=
  match v with
  | some s => if s = "" then dflt else s
  | none => dflt

/-- The `lyrics` dict of a Spotify (Syrics) response. -/
structure SyricsLyricsData where
  language : Option String
  lines : Option (List SyricsLineItem)
deriving DecidableEq, Repr

/-- `SyricsLyricsProvider.get_lyrics` after the client call: `none` input
models a missing track id, a client exception, or a response without a
`lyrics` key. -/
def syrics_get_lyrics (data : Option SyricsLyricsData) : Option LyricsPayload :=
  match data with
  | none => none
  | some lyr =>
      let language := pyOrStr lyr.language "unknown"
      let lines := (lyr.lines.getD []).filterMap parseSyricsLine
      if lines.isEmpty then none
      else some { language := language, lines := lines, synced := true }

/-! ### `LRCLibLyricsProvider._parse_lrc` (claim C4)

The LRC grammar work (`TIME_TAG.finditer` / `TIME_TAG.sub`) is abstracted:
a raw LRC line is modelled as the list of `(mm, ss, cs)` time tags the regex
finds on it plus the stripped residual text.  A blank raw line and a line
without tags both contribute nothing (in the model, both have `tags = []`).
The collected lines are then sorted stably by start time
(`lines.sort(key=lambda x: x.start_time_ms)`). -/

/-- One physical LRC line: its matched `[mm:ss]` / `[mm:ss.cc]` tags and its
tag-stripped text. -/
structure LrcRawLine where
  tags : List (Nat × Nat × Nat)
  text : String
deriving DecidableEq, Repr

/-- `start_ms = (mm * 60 + ss) * 1000 + cs * 10`. -/
def lrcTimeMs (t : Nat × Nat × Nat) : Int :=
  (((t.1 * 60 + t.2.1) * 1000 + t.2.2 * 10 : Nat) : Int)

/-- The key of `LyricsLine` sorting (`lambda x: x.start_time_ms`). -/
def lineKey (l : LyricsLine) : Int := l.start_time_ms

/-- The collection loop of `_parse_lrc`: one `LyricsLine` per tag, in
discovery order. -/
def lrcCollect (rawLines : List LrcRawLine) : List LyricsLine :=
  rawLines.flatMap fun r =>
    r.tags.map fun m => ({ start_time_ms := lrcTimeMs m, words := r.text } : LyricsLine)

/-- `LRCLibLyricsProvider._parse_lrc` on tokenised raw lines: collect, then
`lines.sort(key=lambda x: x.start_time_ms)` (stable). -/
def parse_lrc (rawLines : List LrcRawLine) : List LyricsLine :=
  (lrcCollect rawLines).insertionSort (keyLE lineKey)

/-! ### `UtaNetLyricsProvider._plain_to_synthetic` (claim C4)

```python
text = (plain_text or '').strip()
if not text: return []
segments = [seg.strip() for seg in text.split() if seg.strip()]
count = len(segments)
spacing = 3000
if duration_ms and duration_ms > 0:
    spacing = max(1000, duration_ms // max(1, count + 1))
...same assignment loop...
``` -/

/-- Helper for `pySplitWs`: accumulates the current segment (reversed). -/
def splitWsAux : List Char → List Char → List String
  | [], acc => if acc.isEmpty then [] else [String.mk acc.reverse]
  | c :: rest, acc =>
      if isPyWhitespace c then
        if acc.isEmpty then splitWsAux rest []
        else String.mk acc.reverse :: splitWsAux rest []
      else splitWsAux rest (c :: acc)

/-- Python `str.split()` with no argument: split on whitespace runs, no empty
segments. -/
def pySplitWs (s : String) : List String :=
  splitWsAux s.data []

/-- `UtaNetLyricsProvider._plain_to_synthetic`.  `duration_ms and
duration_ms > 0` is equivalent to `duration_ms > 0` (0 is falsy). -/
def utanet_plain_to_synthetic (plain_text : String) (duration_ms : Int) : List LyricsLine :=
  let text := pyStrip plain_text
  if text.data.isEmpty then []
  else
    let segments := ((pySplitWs text).map pyStrip).filter (fun s => s ≠ "")
    assignSynthetic (syntheticSpacing duration_ms segments.length) 0 segments

/-! ### `lyrics_manager.LyricsManager` (claims C4, C7, C8, C10)

Lyric dicts flowing through the manager and the app carry `startTimeMs`
(int or str — `PyTime`), `words`, and (after translation) `translated`. -/

/-- An element of the manager's `lyrics_data` input (only `startTimeMs` and
`words` are read). -/
structure RawLine where
  startTimeMs : PyTime
  words : String
deriving DecidableEq, Repr

/-- A translated lyric dict `{'startTimeMs', 'words', 'translated'}`. -/
structure TransLine where
  startTimeMs : PyTime
  words : String
  translated : String
deriving DecidableEq, Repr

/-- Sort key `int(x['startTimeMs'])` on raw lines; the `getD 0` branch is
irrelevant because every sorting call is guarded by an all-parse check. -/
def rawKey (x : RawLine) : Int := (pyInt x.startTimeMs).getD 0

/-- Sort key `int(x['startTimeMs'])` on translated lines. -/
def transKey (x : TransLine) : Int := (pyInt x.startTimeMs).getD 0

/-- The merged dict `{'startTimeMs': src['startTimeMs'], 'words':
src['words'], 'translated': translated_text}` built by `translate_lyrics`. -/
def mkTransLine (src : RawLine) (t : String) : TransLine :=
  { startTimeMs := src.startTimeMs, words := src.words, translated := t }

/-- The dict stored in the cache by `translate_lyrics` /
`update_cache_with_title` (title keys optional), and also the shape returned
by `get_cached_lyrics`. -/
structure CacheEntryData where
  lyrics : List TransLine
  lyrics_source : String
  translation_source : String
  synced : Bool
  original_title : Option String := none
  translated_title : Option String := none
deriving DecidableEq, Repr, Inhabited

/-- A stored cache value: the legacy on-disk format was a bare line list, the
current format is a dict. -/
inductive CacheVal where
  | listV (l : List TransLine)
  | dictV (e : CacheEntryData)
deriving DecidableEq, Repr

/-- The pickled cache: a Python dict (insertion-ordered, unique keys),
modelled as an association list. -/
abbrev Cache := List (String × CacheVal)

/-- Python truthiness of a cached value (`if cached:`): an empty legacy list
is falsy; entry dicts written by this code always have keys, hence truthy. -/
def cachedTruthy : CacheVal → Bool
  | .listV l => !l.isEmpty
  | .dictV _ => true

/-- The guarded in-place sort
`try: lyrics.sort(key=lambda x: int(x['startTimeMs'])) except: pass`:
CPython computes all sort keys before reordering, so a raising key leaves the
list unchanged. -/
def pySortTransLines (l : List TransLine) : List TransLine :=
  if l.all (fun x => (pyInt x.startTimeMs).isSome) then l.insertionSort (keyLE transKey)
  else l

/-- `LyricsManager.get_cached_lyrics`.  In the legacy branch the synthesized
entry uses `'Unknown'` sources and `synced=True`; in the dict branch the
`.get(..., default)` reads are modelled by the always-present fields of
`CacheEntryData` (every entry this code writes carries them). -/
def get_cached_lyrics (cache : Cache) (song_id : String) : Option CacheEntryData :=
  match List.lookup song_id cache with
  | none => none
  | some v =>
      if cachedTruthy v then
        match v with
        | .listV l =>
            some { lyrics := pySortTransLines l, lyrics_source := "Unknown"
                   translation_source := "Unknown", synced := true }
        | .dictV e =>
            some { lyrics := pySortTransLines e.lyrics, lyrics_source := e.lyrics_source
                   translation_source := e.translation_source, synced := e.synced
                   original_title := e.original_title, translated_title := e.translated_title }
      else none

/-- Python dict assignment `cache[k] = v`: overwrite in place if the key
exists, else append (insertion order preserved). -/
def dictInsert (c : Cache) (k : String) (v : CacheVal) : Cache :=
  if c.any (fun p => p.1 = k) then c.map (fun p => if p.1 = k then (k, v) else p)
  else c ++ [(k, v)]

/-- `cache.pop(next(iter(cache)))`: removes the first (oldest-inserted) key;
dict keys are unique, so this is the head entry. -/
def popOldest (c : Cache) : Cache := c.tail

/-- Python truthiness of an optional string (`None` and `''` are falsy). -/
def strTruthy : Option String → Bool
  | some s => !s.isEmpty
  | none => false

/-- The `ordered` local of `translate_lyrics`:
`sorted(lyrics_data, key=lambda x: int(x['startTimeMs']))` (stable). -/
def orderedLyrics (lyrics_data : List RawLine) : List RawLine :=
  lyrics_data.insertionSort (keyLE rawKey)

/-- The `translated_lyrics` local of `translate_lyrics`: the client call on
the ordered word list (`none` models a raised exception, caught with the
originals as fallback), zipped back over the ordered lines. -/
def translatedLyricsOf (translateLinesCall : List String → Option (List String))
    (lyrics_data : List RawLine) : List TransLine :=
  let original_lines := (orderedLyrics lyrics_data).map (fun l => l.words)
  List.zipWith mkTransLine (orderedLyrics lyrics_data)
    ((translateLinesCall original_lines).getD original_lines)

/-- The `cache_entry` dict built by `translate_lyrics` (title keys added only
when both the title and its translation are truthy). -/
def cacheEntryOf (translated_lyrics : List TransLine)
    (lyrics_source translation_source : String) (synced : Bool)
    (song_title titleResult : Option String) : CacheEntryData :=
  let translated_title := if strTruthy song_title then titleResult else none
  let base : CacheEntryData :=
    { lyrics := translated_lyrics, lyrics_source := lyrics_source
      translation_source := translation_source, synced := synced }
  if strTruthy song_title && strTruthy translated_title then
    { base with original_title := song_title, translated_title := translated_title }
  else base

/-- The size bound of `translate_lyrics`: evict the oldest (first) entry when
the insert pushed the dict past `max_cache_size`. -/
def evictIfOver (c : Cache) (max_cache_size : Nat) : Cache :=
  if c.length > max_cache_size then popOldest c else c

/-- `LyricsManager.translate_lyrics`.

* `translateLinesCall` models `self.translation_client.translate_lines(...)`:
  `some` is a returned list, `none` a raised exception (caught; originals are
  kept as the fallback).
* `translation_source` models the `get_source_name()` result (with its own
  catch-all defaulting, performed by the code outside this claim's scope).
* `titleResult` models the `translate_song_title` return value when a title
  is supplied (that helper never raises: it catches and returns the
  original).
* The outer `Option` is `none` exactly when `sorted(lyrics_data,
  key=lambda x: int(x['startTimeMs']))` raises on an unparsable time.

Returns the translated line list together with the updated cache. -/
def translate_lyrics (cache : Cache) (max_cache_size : Nat)
    (translateLinesCall : List String → Option (List String))
    (translation_source : String) (titleResult : Option String)
    (lyrics_data : List RawLine) (song_id : String) (lyrics_source : String)
    (song_title : Option String) (synced : Bool) :
    Option (List TransLine × Cache) :=
  if lyrics_data.all (fun x => (pyInt x.startTimeMs).isSome) then
    some (translatedLyricsOf translateLinesCall lyrics_data,
          evictIfOver
            (dictInsert cache song_id (.dictV
              (cacheEntryOf (translatedLyricsOf translateLinesCall lyrics_data)
                lyrics_source translation_source synced song_title titleResult)))
            max_cache_size)
  else none

/-- The scan of `LyricsManager.get_current_line`: walks the lines in order,
remembering the last line with `int(startTimeMs) <= position_ms` and breaking
at the first later line; `.error` models the `ValueError` of `int()` on an
unparsable time. -/
def get_current_line_aux (pos : Int) : List TransLine → Option TransLine →
    Except Unit (Option TransLine)
  | [], cur => .ok cur
  | l :: rest, cur =>
      match pyInt l.startTimeMs with
      | none => .error ()
      | some t =>
          if t ≤ pos then get_current_line_aux pos rest (some l) else .ok cur

/-- `LyricsManager.get_current_line`: `None` for an empty (or `None`) lyrics
list, else the last line started at or before `position_ms`, defaulting to
the first line when all lines are in the future. -/
def get_current_line (lyrics : List TransLine) (position_ms : Int) :
    Except Unit (Option TransLine) :=
  if lyrics.isEmpty then .ok none
  else
    match get_current_line_aux position_ms lyrics none with
    | .error e => .error e
    | .ok (some c) => .ok (some c)
    | .ok none => .ok lyrics.head?

/-- The specification's description of `get_current_line`, stated
independently of the scan: the last line whose start time is `≤ position_ms`,
or the first line if there is none; `none` only for an empty list.  Used to
state the refinement claim C10. -/
def specCurrentLine (lyrics : List TransLine) (position_ms : Int) : Option TransLine :=
  if lyrics.isEmpty then none
  else
    match (lyrics.filter (fun l => decide (transKey l ≤ position_ms))).getLast? with
    | some l => some l
    | none => lyrics.head?

/-! ### `translation_clients` (claim C6) -/

/-- `GoogleTranslateClient.translate_lines`: per-line translation with a
per-line catch-all falling back to the original text (`translateOne` models
`translator.translate`, `none` = raised), followed by the defensive
pad/truncate step. -/
def google_translate_lines (lines : List String)
    (translateOne : String → Option String) : List String :=
  let results := lines.map (fun text => (translateOne text).getD text)
  if results.length = lines.length then results
  else if results.length < lines.length then results ++ lines.drop results.length
  else results.take lines.length

/-- The observable outcome of the OpenRouter HTTP call. -/
inductive ORResponse where
  | netError
  | httpError (status : Nat)
  | badJson
  | badFormat
  | content (s : Option String)
deriving DecidableEq, Repr

/-- `l.rstrip("\r")`. -/
def rstripCr (s : String) : String :=
  String.mk ((s.data.reverse.dropWhile (fun c => c = '\r')).reverse)

/-- Does the string start with the two given characters? -/
def strStartsWith2 (s : String) (c0 c1 : Char) : Bool :=
  match s.data with
  | a :: b :: _ => a = c0 && b = c1
  | _ => false

/-- The per-line cleanup of `OpenRouterClient._normalize_lines`: strip, drop
a leading `"- "`/`"* "`, drop a numeric prefix like `"1. "`/`"1) "`. -/
def cleanLine (l : String) : String :=
  let s := pyStrip l
  let s :=
    if strStartsWith2 s '-' ' ' || strStartsWith2 s '*' ' ' then
      pyStrip (String.mk (s.data.drop 2))
    else s
  match s.data with
  | c0 :: c1 :: c2 :: rest =>
      if c0.isDigit && (c1 = '.' || c1 = ')') && c2 = ' ' then pyStrip (String.mk rest)
      else s
  | _ => s

/-- `OpenRouterClient._normalize_lines`. -/
def normalize_lines (output : String) (expected_count : Nat)
    (original_lines : List String) : List String :=
  let lines := (pySplitNl output).map rstripCr
  let cleaned := lines.map cleanLine
  if cleaned.length = expected_count then cleaned
  else if cleaned.length < expected_count then
    cleaned ++ original_lines.drop cleaned.length
  else cleaned.take expected_count

/-- `OpenRouterClient.translate_lines`: raises (`.error`) on a missing API
key, an unreachable endpoint, an HTTP error status, invalid JSON, or an
unexpected response shape; on success normalizes the model output.  The
constructor already stored `api_key.strip()`. -/
def openrouter_translate_lines (api_key : String) (lines : List String)
    (resp : ORResponse) : Except String (List String) :=
  if (pyStrip api_key).data.isEmpty then
    .error "OpenRouter API key is missing. Please provide it in settings."
  else
    match resp with
    | .netError => .error "Failed to reach OpenRouter"
    | .httpError status => .error ("OpenRouter error " ++ toString status)
    | .badJson => .error "Invalid JSON response from OpenRouter."
    | .badFormat => .error "Unexpected OpenRouter response format."
    | .content c => .ok (normalize_lines (c.getD "") lines.length lines)

/-! ### `app.merge_translations_into_current` (claim C9)

The function builds `current_lookup = {(startTimeMs, words): line}` once
(later duplicates overwrite earlier ones, so a key maps to the *last* line
with that key), then for each translated line sets `translated` on the
looked-up line, trying the opposite-typed `startTimeMs` key when the direct
key misses.  Since mutations only touch `translated`, the keys never change
and the dict-based mutation is equivalent to the per-line list update
modelled here. -/

/-- The merge key of a line. -/
def mergeKey (t : TransLine) : PyTime × String := (t.startTimeMs, t.words)

/-- Does the current line match the lookup key? -/
def keyMatches (l : TransLine) (k : PyTime × String) : Bool :=
  decide (l.startTimeMs = k.1 ∧ l.words = k.2)

/-- The opposite-typed `startTimeMs` key: `int(str)` (or `None` on
`ValueError`), `str(int)`. -/
def altKeyTime : PyTime → Option PyTime
  | .strV s => (pyIntOfString s).map (fun n => .intV n)
  | .intV n => some (.strV (toString n))

/-- Set `translated` on the first matching line of the (reversed) list. -/
def updateFirstMatching (k : PyTime × String) (newT : String) :
    List TransLine → List TransLine
  | [] => []
  | l :: rest =>
      if keyMatches l k then { l with translated := newT } :: rest
      else l :: updateFirstMatching k newT rest

/-- Set `translated` on the *last* line matching the key (the line the
`current_lookup` dict maps the key to). -/
def updateLastMatching (cur : List TransLine) (k : PyTime × String)
    (newT : String) : List TransLine :=
  (updateFirstMatching k newT cur.reverse).reverse

/-- Processing of one translated line by the merge loop. -/
def mergeOne (cur : List TransLine) (t : TransLine) : List TransLine :=
  let key := mergeKey t
  if cur.any (fun l => keyMatches l key) then updateLastMatching cur key t.translated
  else
    match altKeyTime t.startTimeMs with
    | none => cur
    | some alt =>
        let altKey := (alt, t.words)
        if cur.any (fun l => keyMatches l altKey) then
          updateLastMatching cur altKey t.translated
        else cur

/-- `app.merge_translations_into_current` (its effect on `current_lyrics`;
the returned update count is not modelled). -/
def merge_translations_into_current (cur : List TransLine)
    (translated_lyrics : List TransLine) : List TransLine :=
  translated_lyrics.foldl mergeOne cur

theorem assignSynthetic_length (spacing current : Int) (l : List String) :
    (assignSynthetic spacing current l).length = l.length := by
  induction l generalizing current with
  | nil => rfl
  | cons a t ih => simp [assignSynthetic, ih]

theorem assignSynthetic_get (spacing current : Int) (l : List String) (i : Nat)
    (hi : i < l.length) :
    (assignSynthetic spacing current l).get
        ⟨i, by rw [assignSynthetic_length]; exact hi⟩ =
      { start_time_ms := current + spacing * i, words := l.get ⟨i, hi⟩ } := by
  induction l generalizing current i with
  | nil => exact absurd hi (by simp)
  | cons a t ih =>
      cases i with
      | zero => simp [assignSynthetic]
      | succ j =>
          have hj : j < t.length := Nat.lt_of_succ_lt_succ hi
          have := ih (current + spacing) j hj
          simp only [assignSynthetic, List.get_cons_succ, this]
          have harith : current + spacing + spacing * (j : Int) = current + spacing * ((j : Int) + 1) := by
            ring
          simp [harith]

/-! ## Claim C1 -/

/-- C1 (code bug in the source): the spec says every provider payload carries
a `source` tag, and every provider success path indeed passes
`source="Spotify"` / `"LRCLib"` / `"Uta-Net"` — but the `LyricsPayload`
dataclass declares no `source` field, so each of those constructor calls is
rejected (`TypeError: unexpected keyword argument 'source'`): the keyword
sets of all four success-path call sites fail the dataclass-call check, and
`source` is not among the declared fields. -/
theorem lyricsPayload_source_kwarg_rejected :
    dataclassCallOk lyricsPayloadFields syricsPayloadKwargs = false ∧
    dataclassCallOk lyricsPayloadFields lrclibSyncedPayloadKwargs = false ∧
    dataclassCallOk lyricsPayloadFields lrclibPlainPayloadKwargs = false ∧
    dataclassCallOk lyricsPayloadFields utanetPayloadKwargs = false ∧
    lyricsPayloadFields.contains "source" = false := by decide

/-! ## Claim C5 -/

/-- C5 (confirmed): `_plain_to_synthetic` gives line `i` (0-based) the start
time `i * spacing` with `spacing = max(1000, duration_ms // (n+1))` when
`duration_ms > 0` and `3000` otherwise, where `n` is the number of non-empty
stripped lines; the words are the stripped lines in order. -/
theorem plain_to_synthetic_spacing (plain_text : String) (duration_ms : Int)
    (i : Nat) (hi : i < (rawLinesOf plain_text).length) :
    (plain_to_synthetic plain_text duration_ms).length = (rawLinesOf plain_text).length ∧
    (plain_to_synthetic plain_text duration_ms).get? i =
      some { start_time_ms := (i : Int) *
               (if duration_ms > 0
                then max 1000 (duration_ms / ((rawLinesOf plain_text).length + 1 : Int))
                else 3000),
             words := (rawLinesOf plain_text).get ⟨i, hi⟩ } := by
  have hne : ¬ (rawLinesOf plain_text = []) := by
    intro h
    rw [h] at hi
    simp at hi
  have hspac : syntheticSpacing duration_ms (rawLinesOf plain_text).length =
      (if duration_ms > 0
       then max 1000 (duration_ms / ((rawLinesOf plain_text).length + 1 : Int))
       else 3000) := by
    unfold syntheticSpacing
    have h1 : max 1 ((rawLinesOf plain_text).length + 1) = (rawLinesOf plain_text).length + 1 :=
      Nat.max_eq_right (Nat.le_add_left 1 _)
    rw [h1]
    push_cast
    rfl
  unfold plain_to_synthetic
  simp only [hne, if_false]
  refine ⟨assignSynthetic_length _ _ _, ?_⟩
  have hlen : i < (assignSynthetic (syntheticSpacing duration_ms (rawLinesOf plain_text).length)
      0 (rawLinesOf plain_text)).length := by
    rw [assignSynthetic_length]
    exact hi
  rw [List.get?_eq_get hlen, assignSynthetic_get _ _ _ _ hi, hspac]
  simp [zero_add, mul_comm]

/-- Witness for C5 at the spec's own example: 5 lines, `duration_ms=30000`,
spacing `5000`, start times `0,5000,10000,15000,20000`. -/
theorem plain_to_synthetic_spacing_witness :
    (plain_to_synthetic "a\nb\nc\nd\ne" 30000).map LyricsLine.start_time_ms
      = [0, 5000, 10000, 15000, 20000] ∧
    (plain_to_synthetic "a\nb\nc\nd\ne" 30000).get? 4
      = some { start_time_ms := 20000, words := "e" } := by
  refine ⟨by decide, ?_⟩
  have h := (plain_to_synthetic_spacing "a\nb\nc\nd\ne" 30000 4 (by decide)).2
  exact h.trans (by decide)

/-! ## Claim C6 -/

/-- `_normalize_lines` always returns exactly `expected_count` elements when
called (as it is) with `expected_count = len(original_lines)`. -/
theorem normalize_lines_length (output : String) (lines : List String) :
    (normalize_lines output lines.length lines).length = lines.length := by
  simp only [normalize_lines]
  split_ifs with h1 h2
  · exact h1
  · simp only [List.length_append, List.length_drop]
    omega
  · simp only [List.length_take]
    omega

/-- C6 counterexample: `OpenRouterClient.translate_lines` does *not* always
return a list — with an empty API key it raises `ValueError` instead of
returning 2 elements for the input `["a", "b"]`. -/
theorem openrouter_raises_counterexample :
    openrouter_translate_lines "" ["a", "b"] (.content (some "x\ny"))
      = .error "OpenRouter API key is missing. Please provide it in settings." := by
  rfl

/-- C6 (corrected): whenever `translate_lines` returns a list at all, it has
exactly `len(lines)` elements.  `GoogleTranslateClient` always returns, in
order, with the original text substituted for any line whose individual
translation raised; `OpenRouterClient` may raise on whole-call errors
(missing key, network, HTTP, JSON shape) but every list it does return has
exactly `len(lines)` elements. -/
theorem translate_lines_cardinality :
    (∀ (lines : List String) (translateOne : String → Option String),
        (google_translate_lines lines translateOne).length = lines.length ∧
        ∀ i (hi : i < lines.length),
          (google_translate_lines lines translateOne).get? i =
            some ((translateOne (lines.get ⟨i, hi⟩)).getD (lines.get ⟨i, hi⟩))) ∧
    (∀ (api_key : String) (lines : List String) (resp : ORResponse) (out : List String),
        openrouter_translate_lines api_key lines resp = .ok out →
        out.length = lines.length) := by
  constructor
  · intro lines translateOne
    have hres : google_translate_lines lines translateOne =
        lines.map (fun text => (translateOne text).getD text) := by
      unfold google_translate_lines
      simp
    rw [hres]
    refine ⟨by simp, ?_⟩
    intro i hi
    rw [List.get?_map, List.get?_eq_get hi]
    rfl
  · intro api_key lines resp out h
    unfold openrouter_translate_lines at h
    by_cases hk : (pyStrip api_key).data.isEmpty
    · simp [hk] at h
    · simp only [hk, if_false] at h
      cases resp with
      | netError => exact absurd h (by simp)
      | httpError status => exact absurd h (by simp)
      | badJson => exact absurd h (by simp)
      | badFormat => exact absurd h (by simp)
      | content c =>
          have : out = normalize_lines (c.getD "") lines.length lines := by
            cases h
            rfl
          rw [this]
          exact normalize_lines_length _ _

/-- Witness for C6's corrected statement: a per-line failure on `"b"` still
yields 2 elements with `"b"` kept, and a successful OpenRouter call over 2
lines returns 2 elements. -/
theorem translate_lines_cardinality_witness :
    (google_translate_lines ["a", "b"]
        (fun s => if s = "a" then some "A" else none)).length = 2 ∧
    (google_translate_lines ["a", "b"]
        (fun s => if s = "a" then some "A" else none)).get? 1 = some "b" ∧
    (["X", "Y"] : List String).length = (["a", "b"] : List String).length := by
  refine ⟨?_, ?_, ?_⟩
  · exact (translate_lines_cardinality.1 ["a", "b"] _).1
  · exact ((translate_lines_cardinality.1 ["a", "b"]
      (fun s => if s = "a" then some "A" else none)).2 1 (by decide)).trans (by decide)
  · exact translate_lines_cardinality.2 "k" ["a", "b"] (.content (some "X\nY\nZ"))
      ["X", "Y"] (by rfl)

/-! ## Claim C4 -/

/-- Filtering one key class through an ordered insert: the inserted element,
when it has the key, lands in front of the class (all skipped elements have
strictly smaller keys). -/
theorem filter_orderedInsert_key {α : Type} (key : α → Int) (k : Int) (a : α) (l : List α) :
    (l.orderedInsert (keyLE key) a).filter (fun x => decide (key x = k)) =
      if key a = k then a :: l.filter (fun x => decide (key x = k))
      else l.filter (fun x => decide (key x = k)) := by
  induction l with
  | nil =>
      simp only [List.orderedInsert, List.filter_cons, List.filter_nil, decide_eq_true_eq]
  | cons b t ih =>
      by_cases hab : keyLE key a b
      · simp only [List.orderedInsert, if_pos hab, List.filter_cons, decide_eq_true_eq]
      · simp only [List.orderedInsert, if_neg hab, List.filter_cons, decide_eq_true_eq, ih]
        by_cases hak : key a = k
        · have hbk : ¬ (key b = k) := by
            intro hbk
            exact hab (by simp [keyLE, hak, hbk])
          simp [hak, hbk]
        · simp [hak]

/-- Stability of the modelled `list.sort(key=...)`: each key class of the
sorted list is exactly the key class of the input, in original order. -/
theorem filter_insertionSort_key {α : Type} (key : α → Int) (k : Int) (l : List α) :
    (l.insertionSort (keyLE key)).filter (fun x => decide (key x = k)) =
      l.filter (fun x => decide (key x = k)) := by
  induction l with
  | nil => rfl
  | cons a t ih =>
      simp only [List.insertionSort]
      rw [filter_orderedInsert_key]
      by_cases h : key a = k
      · simp [h, ih]
      · simp [h, ih]

/-- The synthetic spacing is always positive (at least 1000, or 3000). -/
theorem syntheticSpacing_pos (d : Int) (n : Nat) : 0 < syntheticSpacing d n := by
  unfold syntheticSpacing
  split_ifs with h
  · have h1 : (1000 : Int) ≤ max 1000 (d / (max 1 (n + 1) : Nat)) := le_max_left _ _
    omega
  · norm_num

/-- Every line assigned by the synthetic-timestamp loop starts at or after
the running offset. -/
theorem assignSynthetic_mem_ge (spacing : Int) (hs : 0 ≤ spacing) :
    ∀ (l : List String) (current : Int) (x : LyricsLine),
      x ∈ assignSynthetic spacing current l → current ≤ x.start_time_ms := by
  intro l
  induction l with
  | nil =>
      intro current x hx
      simp [assignSynthetic] at hx
  | cons a t ih =>
      intro current x hx
      simp only [assignSynthetic, List.mem_cons] at hx
      cases hx with
      | inl h => simp [h]
      | inr h =>
          have := ih (current + spacing) x h
          omega

/-- The synthetic-timestamp loop emits lines sorted (strictly increasing for
positive spacing, hence ascending). -/
theorem assignSynthetic_sorted (spacing : Int) (hs : 0 ≤ spacing) (l : List String)
    (current : Int) :
    List.Sorted (keyLE lineKey) (assignSynthetic spacing current l) := by
  induction l generalizing current with
  | nil => simp [assignSynthetic]
  | cons a t ih =>
      simp only [assignSynthetic]
      rw [List.sorted_cons]
      refine ⟨?_, ih (current + spacing)⟩
      intro b hb
      have hge := assignSynthetic_mem_ge spacing hs t (current + spacing) b hb
      simp only [keyLE, lineKey]
      omega

/-- The guarded in-place sort does not change membership. -/
theorem pySortTransLines_mem_iff (l : List TransLine) (x : TransLine) :
    x ∈ pySortTransLines l ↔ x ∈ l := by
  unfold pySortTransLines
  split_ifs with h
  · exact List.mem_insertionSort _
  · exact Iff.rfl

/-- C4 counterexample: the Syrics provider applies no sort, so a response
whose lines arrive out of order yields a payload whose line sequence is not
sorted ascending by start time. -/
theorem syrics_payload_not_sorted_counterexample :
    syrics_get_lyrics (some
      { language := some "en",
        lines := some [ { startTimeMs := some (.intV 5000), words := some "b" },
                        { startTimeMs := some (.intV 0), words := some "a" } ] })
      = some
        { language := "en",
          lines := [ { start_time_ms := 5000, words := "b" },
                     { start_time_ms := 0, words := "a" } ],
          synced := true } ∧
    ¬ List.Sorted (keyLE lineKey)
        [ ({ start_time_ms := 5000, words := "b" } : LyricsLine),
          { start_time_ms := 0, words := "a" } ] := by
  exact ⟨by rfl, by decide⟩

/-- C4 (corrected): the sortedness invariant holds for the LRCLib parser
(stable sort: sorted, a permutation preserving duplicates, ties in discovery
order), for both synthetic-timestamp converters, and for cache reads whose
stored times are int-parsable (the guarded in-place sort is a stable
permutation); the Syrics provider, however, merely preserves the response's
original line order (see the counterexample). -/
theorem lines_sorted_after_provider_or_cache_read :
    (∀ rawLines : List LrcRawLine,
        List.Sorted (keyLE lineKey) (parse_lrc rawLines) ∧
        (parse_lrc rawLines).Perm (lrcCollect rawLines) ∧
        ∀ k : Int, (parse_lrc rawLines).filter (fun x => decide (lineKey x = k)) =
          (lrcCollect rawLines).filter (fun x => decide (lineKey x = k))) ∧
    (∀ (text : String) (dur : Int),
        List.Sorted (keyLE lineKey) (plain_to_synthetic text dur)) ∧
    (∀ (text : String) (dur : Int),
        List.Sorted (keyLE lineKey) (utanet_plain_to_synthetic text dur)) ∧
    (∀ (l : List TransLine),
        (pySortTransLines l).Perm l ∧
        ∀ k : Int, (pySortTransLines l).filter (fun x => decide (transKey x = k)) =
          l.filter (fun x => decide (transKey x = k))) ∧
    (∀ (cache : Cache) (song_id : String) (e : CacheEntryData),
        get_cached_lyrics cache song_id = some e →
        (∀ x ∈ e.lyrics, (pyInt x.startTimeMs).isSome) →
        List.Sorted (keyLE transKey) e.lyrics) ∧
    (∀ (data : SyricsLyricsData) (payload : LyricsPayload),
        syrics_get_lyrics (some data) = some payload →
        payload.lines = (data.lines.getD []).filterMap parseSyricsLine) := by
  have hsortTrans : ∀ (l : List TransLine),
      (∀ x ∈ l, (pyInt x.startTimeMs).isSome) →
      List.Sorted (keyLE transKey) (pySortTransLines l) := by
    intro l hl
    unfold pySortTransLines
    have : l.all (fun x => (pyInt x.startTimeMs).isSome) = true := by
      rw [List.all_eq_true]
      exact hl
    rw [if_pos this]
    exact List.sorted_insertionSort _ l
  refine ⟨?_, ?_, ?_, ?_, ?_, ?_⟩
  · intro rawLines
    exact ⟨List.sorted_insertionSort _ _, List.perm_insertionSort _ _,
      fun k => filter_insertionSort_key lineKey k (lrcCollect rawLines)⟩
  · intro text dur
    simp only [plain_to_synthetic]
    split_ifs with h
    · simp
    · exact assignSynthetic_sorted _ (le_of_lt (syntheticSpacing_pos _ _)) _ _
  · intro text dur
    simp only [utanet_plain_to_synthetic]
    split_ifs with h
    · simp
    · exact assignSynthetic_sorted _ (le_of_lt (syntheticSpacing_pos _ _)) _ _
  · intro l
    unfold pySortTransLines
    split_ifs with h
    · exact ⟨List.perm_insertionSort _ l, fun k => filter_insertionSort_key transKey k l⟩
    · exact ⟨List.Perm.refl l, fun k => rfl⟩
  · intro cache song_id e he hparse
    unfold get_cached_lyrics at he
    split at he
    · exact absurd he (by simp)
    · split_ifs at he with ht
      · split at he
        · rename_i l heqv
          have hlyr : e.lyrics = pySortTransLines l := by
            cases he
            rfl
          rw [hlyr]
          rw [hlyr] at hparse
          apply hsortTrans
          intro x hx
          exact hparse x ((pySortTransLines_mem_iff l x).2 hx)
        · rename_i d heqv
          have hlyr : e.lyrics = pySortTransLines d.lyrics := by
            cases he
            rfl
          rw [hlyr]
          rw [hlyr] at hparse
          apply hsortTrans
          intro x hx
          exact hparse x ((pySortTransLines_mem_iff d.lyrics x).2 hx)
  · intro data payload h
    unfold syrics_get_lyrics at h
    by_cases hemp : ((data.lines.getD []).filterMap parseSyricsLine).isEmpty = true
    · simp only [hemp, if_pos] at h
      exact absurd h (by simp)
    · simp only [hemp, if_neg, Bool.not_eq_true] at h
      cases h
      rfl

/-- Witness for C4's corrected statement: a concrete LRC token list with a
duplicate start time sorts; a legacy cache entry (int- and string-typed
times) comes back sorted from `get_cached_lyrics`. -/
theorem lines_sorted_witness :
    List.Sorted (keyLE lineKey)
      (parse_lrc [ { tags := [(0, 10, 0)], text := "b" },
                   { tags := [(0, 5, 0), (0, 10, 0)], text := "a" } ]) ∧
    List.Sorted (keyLE transKey)
      ((get_cached_lyrics
          [("id", .listV [ { startTimeMs := .intV 7, words := "x", translated := "" },
                           { startTimeMs := .strV "3", words := "y", translated := "" } ])]
          "id").getD default).lyrics := by
  refine ⟨(lines_sorted_after_provider_or_cache_read.1 _).1, ?_⟩
  exact lines_sorted_after_provider_or_cache_read.2.2.2.2.1
    [("id", .listV [ { startTimeMs := .intV 7, words := "x", translated := "" },
                     { startTimeMs := .strV "3", words := "y", translated := "" } ])]
    "id"
    ((get_cached_lyrics
        [("id", .listV [ { startTimeMs := .intV 7, words := "x", translated := "" },
                         { startTimeMs := .strV "3", words := "y", translated := "" } ])]
        "id").getD default)
    (by rfl) (by decide)

/-! ## Claims C7 and C8 -/

/-- Looking up a key in a list whose entries all have other keys, followed by
a final entry with the key, finds the final entry. -/
theorem lookup_append_singleton (k : String) (v : CacheVal) :
    ∀ c : Cache, (∀ pr ∈ c, pr.1 ≠ k) → List.lookup k (c ++ [(k, v)]) = some v := by
  intro c h
  rw [List.lookup_append]
  have hc : c.lookup k = none := by
    rw [List.lookup_eq_none_iff]
    intro p hp
    simp [Ne.symm (h p hp)]
  rw [hc]
  simp

/-- Overwriting a present key in place keeps it findable with the new value. -/
theorem lookup_map_overwrite (k : String) (v : CacheVal) :
    ∀ c : Cache, c.any (fun p => p.1 = k) = true →
      List.lookup k (c.map (fun p => if p.1 = k then (k, v) else p)) = some v := by
  intro c
  induction c with
  | nil =>
      intro h
      simp at h
  | cons p t ih =>
      intro h
      obtain ⟨p1, p2⟩ := p
      by_cases hp : p1 = k
      · subst hp
        simp
      · have ht : t.any (fun p => p.1 = k) = true := by
          simp only [List.any_cons] at h
          simp only [hp] at h
          simpa using h
        have hne : (k == p1) = false := by
          simp [Ne.symm hp]
        rw [List.map_cons]
        simp only [if_neg hp]
        rw [List.lookup_cons, hne]
        exact ih ht

/-- `cache[k] = v` always leaves `k` mapped to `v`. -/
theorem lookup_dictInsert (c : Cache) (k : String) (v : CacheVal) :
    List.lookup k (dictInsert c k v) = some v := by
  unfold dictInsert
  split_ifs with h
  · exact lookup_map_overwrite k v c h
  · apply lookup_append_singleton
    intro pr hpr hk
    have : c.any (fun p => p.1 = k) = true := by
      rw [List.any_eq_true]
      exact ⟨pr, hpr, by simp [hk]⟩
    exact h this

/-- The dict-assignment length: unchanged on overwrite, one more on a fresh
key. -/
theorem dictInsert_length (c : Cache) (k : String) (v : CacheVal) :
    (dictInsert c k v).length =
      if c.any (fun p => p.1 = k) then c.length else c.length + 1 := by
  unfold dictInsert
  split_ifs with h
  · simp
  · simp

/-- The `cache_entry` dict always carries the translated lines. -/
theorem cacheEntryOf_lyrics (tl : List TransLine) (ls ts : String) (sy : Bool)
    (st tr : Option String) : (cacheEntryOf tl ls ts sy st tr).lyrics = tl := by
  simp only [cacheEntryOf]
  split_ifs <;> rfl

/-- Every zipped translated line inherits its `startTimeMs` from a source
line. -/
theorem zipWith_mkTransLine_time :
    ∀ (l1 : List RawLine) (l2 : List String) (y : TransLine),
      y ∈ List.zipWith mkTransLine l1 l2 → ∃ x ∈ l1, y.startTimeMs = x.startTimeMs := by
  intro l1
  induction l1 with
  | nil =>
      intro l2 y hy
      simp at hy
  | cons a t ih =>
      intro l2 y hy
      cases l2 with
      | nil => simp at hy
      | cons b t2 =>
          simp only [List.zipWith_cons_cons, List.mem_cons] at hy
          cases hy with
          | inl h => exact ⟨a, List.mem_cons_self a t, by rw [h]; rfl⟩
          | inr h =>
              obtain ⟨x, hx, hxy⟩ := ih t2 y h
              exact ⟨x, List.mem_cons_of_mem a hx, hxy⟩

/-- Zipping translations over a key-sorted line list is key-sorted. -/
theorem zipWith_mkTransLine_sorted :
    ∀ (l1 : List RawLine) (l2 : List String),
      List.Sorted (keyLE rawKey) l1 →
      List.Sorted (keyLE transKey) (List.zipWith mkTransLine l1 l2) := by
  intro l1
  induction l1 with
  | nil =>
      intro l2 _
      simp
  | cons a t ih =>
      intro l2 h
      cases l2 with
      | nil => simp
      | cons b t2 =>
          rw [List.sorted_cons] at h
          simp only [List.zipWith_cons_cons]
          rw [List.sorted_cons]
          refine ⟨?_, ih t2 h.2⟩
          intro y hy
          obtain ⟨x, hx, hxy⟩ := zipWith_mkTransLine_time t t2 y hy
          have hax := h.1 x hx
          simp only [keyLE, transKey, mkTransLine, hxy]
          exact hax

/-- The guarded in-place sort is the identity on an already-sorted list. -/
theorem pySortTransLines_of_sorted (l : List TransLine)
    (hs : List.Sorted (keyLE transKey) l) : pySortTransLines l = l := by
  unfold pySortTransLines
  split_ifs with h
  · exact List.Sorted.insertionSort_eq hs
  · rfl

/-- The list `translate_lyrics` returns (and stores) is key-sorted. -/
theorem translatedLyricsOf_sorted (f : List String → Option (List String))
    (lyrics_data : List RawLine) :
    List.Sorted (keyLE transKey) (translatedLyricsOf f lyrics_data) :=
  zipWith_mkTransLine_sorted _ _ (List.sorted_insertionSort _ lyrics_data)

/-- C7 (confirmed): with `N ≥ 1` ids cached, all distinct from the new id,
and the bound set to `N`, `translate_lyrics` for the new id leaves exactly
`N` entries: the oldest-inserted (head) entry is dropped, every other entry
is kept in order, and the new id is present (appended last). -/
theorem cache_eviction_fifo (cache : Cache) (N : Nat)
    (translateLinesCall : List String → Option (List String))
    (translation_source : String) (titleResult : Option String)
    (lyrics_data : List RawLine) (song_id : String) (lyrics_source : String)
    (song_title : Option String) (synced : Bool)
    (hN : cache.length = N) (hpos : 1 ≤ N)
    (hfresh : ∀ pr ∈ cache, pr.1 ≠ song_id)
    (hparse : ∀ x ∈ lyrics_data, (pyInt x.startTimeMs).isSome) :
    ∃ res v,
      translate_lyrics cache N translateLinesCall translation_source titleResult
          lyrics_data song_id lyrics_source song_title synced
        = some (res, cache.tail ++ [(song_id, v)]) ∧
      (cache.tail ++ [(song_id, v)]).length = N ∧
      List.lookup song_id (cache.tail ++ [(song_id, v)]) = some v := by
  have hall : lyrics_data.all (fun x => (pyInt x.startTimeMs).isSome) = true := by
    rw [List.all_eq_true]
    exact hparse
  have hany : cache.any (fun p => p.1 = song_id) = false := by
    rw [Bool.eq_false_iff]
    intro hcon
    rw [List.any_eq_true] at hcon
    obtain ⟨pr, hpr, hk⟩ := hcon
    exact hfresh pr hpr (by simpa using hk)
  have hins : ∀ E : CacheVal, dictInsert cache song_id E = cache ++ [(song_id, E)] := by
    intro E
    unfold dictInsert
    rw [if_neg (by simp [hany])]
  have hevict : ∀ E : CacheVal,
      evictIfOver (dictInsert cache song_id E) N = cache.tail ++ [(song_id, E)] := by
    intro E
    rw [hins E]
    unfold evictIfOver
    rw [if_pos (by simp [hN])]
    unfold popOldest
    cases cache with
    | nil => exact absurd hN (by simp; omega)
    | cons p t => rfl
  refine ⟨translatedLyricsOf translateLinesCall lyrics_data,
    CacheVal.dictV (cacheEntryOf (translatedLyricsOf translateLinesCall lyrics_data)
      lyrics_source translation_source synced song_title titleResult), ?_, ?_, ?_⟩
  · unfold translate_lyrics
    rw [if_pos hall, hevict]
  · simp only [List.length_append, List.length_tail, List.length_singleton, hN]
    omega
  · apply lookup_append_singleton
    intro pr hpr
    exact hfresh pr (List.mem_of_mem_tail hpr)

/-- Witness for C7: a two-entry cache bounded at 2 receives a third id; the
first-inserted entry is evicted, the second survives, the new id is last. -/
theorem cache_eviction_fifo_witness :
    ∃ res v,
      translate_lyrics
          [("a", CacheVal.dictV ⟨[], "s", "t", true, none, none⟩),
           ("b", CacheVal.dictV ⟨[], "s", "t", true, none, none⟩)]
          2 (fun _ => none) "Google Translate" none
          [ { startTimeMs := .intV 0, words := "w" } ] "c" "Spotify" none true
        = some (res, [("b", CacheVal.dictV ⟨[], "s", "t", true, none, none⟩)] ++ [("c", v)]) ∧
      ([("b", CacheVal.dictV ⟨[], "s", "t", true, none, none⟩)] ++ [("c", v)]).length = 2 ∧
      List.lookup "c"
          ([("b", CacheVal.dictV ⟨[], "s", "t", true, none, none⟩)] ++ [("c", v)]) = some v := by
  exact cache_eviction_fifo _ 2 _ _ _ _ _ _ _ _ (by rfl) (by omega)
    (by decide) (by decide)

/-- C8 (confirmed): when no eviction can touch the fresh entry (the cache is
strictly below its bound), reading the track id right after
`translate_lyrics` wrote it yields a cache entry whose line list is exactly
the returned list — same count, words, and translated text per line. -/
theorem cache_round_trip (cache : Cache) (max_cache_size : Nat)
    (translateLinesCall : List String → Option (List String))
    (translation_source : String) (titleResult : Option String)
    (lyrics_data : List RawLine) (song_id : String) (lyrics_source : String)
    (song_title : Option String) (synced : Bool)
    (hsize : cache.length < max_cache_size)
    (hparse : ∀ x ∈ lyrics_data, (pyInt x.startTimeMs).isSome) :
    ∃ res c2,
      translate_lyrics cache max_cache_size translateLinesCall translation_source
          titleResult lyrics_data song_id lyrics_source song_title synced
        = some (res, c2) ∧
      ∃ out, get_cached_lyrics c2 song_id = some out ∧ out.lyrics = res := by
  have hall : lyrics_data.all (fun x => (pyInt x.startTimeMs).isSome) = true := by
    rw [List.all_eq_true]
    exact hparse
  have hc1 : (dictInsert cache song_id (.dictV
      (cacheEntryOf (translatedLyricsOf translateLinesCall lyrics_data)
        lyrics_source translation_source synced song_title titleResult))).length
        ≤ max_cache_size := by
    rw [dictInsert_length]
    split_ifs <;> omega
  have hnoev : evictIfOver (dictInsert cache song_id (.dictV
      (cacheEntryOf (translatedLyricsOf translateLinesCall lyrics_data)
        lyrics_source translation_source synced song_title titleResult)))
        max_cache_size
      = dictInsert cache song_id (.dictV
          (cacheEntryOf (translatedLyricsOf translateLinesCall lyrics_data)
            lyrics_source translation_source synced song_title titleResult)) := by
    unfold evictIfOver
    rw [if_neg (by omega)]
  refine ⟨translatedLyricsOf translateLinesCall lyrics_data,
    dictInsert cache song_id (CacheVal.dictV
      (cacheEntryOf (translatedLyricsOf translateLinesCall lyrics_data)
        lyrics_source translation_source synced song_title titleResult)), ?_, ?_⟩
  · unfold translate_lyrics
    rw [if_pos hall, hnoev]
  · set E := cacheEntryOf (translatedLyricsOf translateLinesCall lyrics_data)
      lyrics_source translation_source synced song_title titleResult with hE
    refine ⟨⟨pySortTransLines E.lyrics, E.lyrics_source, E.translation_source,
      E.synced, E.original_title, E.translated_title⟩, ?_, ?_⟩
    · unfold get_cached_lyrics
      rw [lookup_dictInsert]
      rfl
    · show pySortTransLines E.lyrics = _
      rw [hE, cacheEntryOf_lyrics]
      exact pySortTransLines_of_sorted _ (translatedLyricsOf_sorted _ _)

/-- Witness for C8: translating one line for a fresh id in a roomy cache and
reading it back yields the same single translated line. -/
theorem cache_round_trip_witness :
    ∃ res c2,
      translate_lyrics [] 5 (fun _ => some ["HI"]) "Google Translate" none
          [ { startTimeMs := .intV 1000, words := "hi" } ] "id" "Spotify" none true
        = some (res, c2) ∧
      ∃ out, get_cached_lyrics c2 "id" = some out ∧ out.lyrics = res := by
  exact cache_round_trip [] 5 (fun _ => some ["HI"]) "Google Translate" none
    [ { startTimeMs := .intV 1000, words := "hi" } ] "id" "Spotify" none true
    (by decide) (by decide)

/-! ## Claim C9 -/

/-- Setting `translated` on the first match preserves every line's key (its
`startTimeMs` and `words`). -/
theorem updateFirstMatching_map_keys (k : PyTime × String) (s : String) :
    ∀ l : List TransLine,
      (updateFirstMatching k s l).map mergeKey = l.map mergeKey := by
  intro l
  induction l with
  | nil => rfl
  | cons a t ih =>
      unfold updateFirstMatching
      split_ifs with h
      · rfl
      · simp only [List.map_cons, ih]

/-- Setting `translated` on the last match preserves every line's key. -/
theorem updateLastMatching_map_keys (cur : List TransLine) (k : PyTime × String)
    (s : String) : (updateLastMatching cur k s).map mergeKey = cur.map mergeKey := by
  unfold updateLastMatching
  rw [List.map_reverse, updateFirstMatching_map_keys, List.map_reverse,
    List.reverse_reverse]

/-- One merge step preserves every line's key. -/
theorem mergeOne_map_keys (cur : List TransLine) (t : TransLine) :
    (mergeOne cur t).map mergeKey = cur.map mergeKey := by
  simp only [mergeOne]
  split_ifs with h1
  · exact updateLastMatching_map_keys _ _ _
  · cases altKeyTime t.startTimeMs with
    | none => rfl
    | some alt =>
        simp only
        split_ifs with h2
        · exact updateLastMatching_map_keys _ _ _
        · rfl

/-- C9 (confirmed): the merge matches each translated line by the composite
`(startTimeMs, words)` key, falling back to the opposite-typed time key;
(i) no merge ever changes a current line's `startTimeMs` or `words` and no
line is dropped (the key sequence is untouched), (ii) a translated line
matching neither its direct nor its opposite-typed key changes nothing, and
(iii) the spec's example: a string-typed `"1000"` translated line sets
`translated="salut"` on the int-typed `1000` current line. -/
theorem merge_by_key_reconciliation :
    (∀ (cur ts : List TransLine),
        (merge_translations_into_current cur ts).map mergeKey = cur.map mergeKey) ∧
    (∀ (cur : List TransLine) (t : TransLine),
        cur.any (fun l => keyMatches l (mergeKey t)) = false →
        (∀ alt, altKeyTime t.startTimeMs = some alt →
            cur.any (fun l => keyMatches l (alt, t.words)) = false) →
        mergeOne cur t = cur) ∧
    merge_translations_into_current
        [ { startTimeMs := .intV 1000, words := "hi", translated := "" } ]
        [ { startTimeMs := .strV "1000", words := "hi", translated := "salut" } ]
      = [ { startTimeMs := .intV 1000, words := "hi", translated := "salut" } ] := by
  refine ⟨?_, ?_, ?_⟩
  · intro cur ts
    induction ts generalizing cur with
    | nil => rfl
    | cons t rest ih =>
        unfold merge_translations_into_current at ih ⊢
        rw [List.foldl_cons]
        rw [ih (mergeOne cur t), mergeOne_map_keys]
  · intro cur t h1 h2
    simp only [mergeOne]
    rw [h1]
    simp only [if_false, Bool.false_eq_true]
    cases halt : altKeyTime t.startTimeMs with
    | none => rfl
    | some alt =>
        simp only
        rw [h2 alt halt]
        simp
  · rfl

/-- Witness for C9: the unmatched-line clause at a concrete input — a
translated line whose direct and coerced keys both miss leaves the single
current line untouched; the key-preservation clause at the same input. -/
theorem merge_by_key_reconciliation_witness :
    (merge_translations_into_current
        [ { startTimeMs := .intV 5, words := "x", translated := "" } ]
        [ { startTimeMs := .intV 7, words := "y", translated := "tr" } ]).map mergeKey
      = [ ({ startTimeMs := .intV 5, words := "x", translated := "" } : TransLine) ].map
          mergeKey ∧
    mergeOne [ { startTimeMs := .intV 5, words := "x", translated := "" } ]
        { startTimeMs := .intV 7, words := "y", translated := "tr" }
      = [ { startTimeMs := .intV 5, words := "x", translated := "" } ] := by
  refine ⟨merge_by_key_reconciliation.1 _ _, ?_⟩
  refine merge_by_key_reconciliation.2.1 _ _ (by decide) ?_
  intro alt halt
  have : alt = PyTime.strV "7" := by
    simp [altKeyTime] at halt
    exact halt.symm
  rw [this]
  decide

/-! ## Claim C10 -/

/-- The scan of `get_current_line` computes the last line with start time
`≤ position`, falling back to the accumulator, provided the list is sorted
and every time parses. -/
theorem get_current_line_aux_spec :
    ∀ (lyrics : List TransLine) (cur : Option TransLine) (pos : Int),
      (∀ l ∈ lyrics, (pyInt l.startTimeMs).isSome) →
      List.Sorted (keyLE transKey) lyrics →
      get_current_line_aux pos lyrics cur =
        .ok (match (lyrics.filter (fun l => decide (transKey l ≤ pos))).getLast? with
             | some l => some l
             | none => cur) := by
  intro lyrics
  induction lyrics with
  | nil =>
      intro cur pos _ _
      rfl
  | cons l rest ih =>
      intro cur pos hp hs
      obtain ⟨t, ht⟩ := Option.isSome_iff_exists.1 (hp l (List.mem_cons_self l rest))
      have hkey : transKey l = t := by simp [transKey, ht]
      rw [List.sorted_cons] at hs
      unfold get_current_line_aux
      rw [ht]
      show (if t ≤ pos then get_current_line_aux pos rest (some l) else Except.ok cur) = _
      by_cases hle : t ≤ pos
      · rw [if_pos hle]
        rw [ih (some l) pos (fun x hx => hp x (List.mem_cons_of_mem _ hx)) hs.2]
        have hfl : (l :: rest).filter (fun x => decide (transKey x ≤ pos)) =
            l :: rest.filter (fun x => decide (transKey x ≤ pos)) := by
          simp [List.filter_cons, hkey, hle]
        rw [hfl]
        cases hfr : rest.filter (fun x => decide (transKey x ≤ pos)) with
        | nil => rfl
        | cons y ys =>
            rw [List.getLast?_cons_cons]
            cases hz : (y :: ys).getLast? with
            | none => exact absurd hz (by simp)
            | some z => rfl
      · rw [if_neg hle]
        have hfilter : (l :: rest).filter (fun x => decide (transKey x ≤ pos)) = [] := by
          rw [List.filter_eq_nil_iff]
          intro x hx
          rcases List.mem_cons.1 hx with hxl | hxr
          · subst hxl
            simp [hkey]
            omega
          · have hlx := hs.1 x hxr
            simp only [keyLE, hkey] at hlx
            simp only [decide_eq_true_eq]
            omega
        rw [hfilter]
        rfl

/-- C10 (confirmed): on a sorted, parsable lyrics list, `get_current_line`
returns the last line whose start time is `≤ position_ms`, or the first line
when every line is in the future, and returns `None` exactly for an empty
list. -/
theorem get_current_line_correct (lyrics : List TransLine) (position_ms : Int)
    (hp : ∀ l ∈ lyrics, (pyInt l.startTimeMs).isSome)
    (hs : List.Sorted (keyLE transKey) lyrics) :
    get_current_line lyrics position_ms = .ok (specCurrentLine lyrics position_ms) ∧
    (specCurrentLine lyrics position_ms = none ↔ lyrics = []) := by
  cases lyrics with
  | nil => exact ⟨rfl, by simp [specCurrentLine]⟩
  | cons a t =>
      constructor
      · unfold get_current_line
        rw [if_neg (by simp)]
        rw [get_current_line_aux_spec (a :: t) none position_ms hp hs]
        unfold specCurrentLine
        rw [if_neg (by simp)]
        cases hgl : ((a :: t).filter (fun l => decide (transKey l ≤ position_ms))).getLast? with
        | none => rfl
        | some c => rfl
      · unfold specCurrentLine
        rw [if_neg (by simp)]
        constructor
        · intro h
          cases hgl : ((a :: t).filter (fun l => decide (transKey l ≤ position_ms))).getLast? with
          | none => rw [hgl] at h; simp at h
          | some c => rw [hgl] at h; simp at h
        · intro h
          exact absurd h (by simp)

/-- Witness for C10 at a concrete mixed-typed, sorted two-line list and
position 6000: the second line (started at 5000) is current. -/
theorem get_current_line_correct_witness :
    get_current_line
        [ { startTimeMs := .intV 0, words := "a", translated := "" },
          { startTimeMs := .strV "5000", words := "b", translated := "" } ] 6000
      = .ok (specCurrentLine
          [ { startTimeMs := .intV 0, words := "a", translated := "" },
            { startTimeMs := .strV "5000", words := "b", translated := "" } ] 6000) ∧
    specCurrentLine
        [ { startTimeMs := .intV 0, words := "a", translated := "" },
          { startTimeMs := .strV "5000", words := "b", translated := "" } ] 6000
      = some { startTimeMs := .strV "5000", words := "b", translated := "" } := by
  refine ⟨(get_current_line_correct _ 6000 (by decide) (by decide)).1, by decide⟩

/-! ## Claims C2 and C3 -/

/-- A provider's attempt loop never performs more attempts than its budget. -/
theorem runProviderAttempts_trace_length (beh : Nat → AttemptOutcome) :
    ∀ (fuel i0 : Nat), (runProviderAttempts beh fuel i0).2.length ≤ fuel := by
  intro fuel
  induction fuel with
  | zero =>
      intro i0
      simp [runProviderAttempts]
  | succ fuel ih =>
      intro i0
      simp only [runProviderAttempts]
      by_cases h : payloadHasLines (caughtPayload (beh i0)) = true
      · rw [if_pos h]
        simp
      · rw [if_neg h]
        simp only [List.length_cons]
        exact Nat.succ_le_succ (ih (i0 + 1))

/-- If every attempt of a provider fails, its loop yields no payload. -/
theorem runProviderAttempts_all_fail (beh : Nat → AttemptOutcome)
    (h : ∀ i, attemptFailsB (beh i) = true) :
    ∀ (fuel i0 : Nat), (runProviderAttempts beh fuel i0).1 = none := by
  intro fuel
  induction fuel with
  | zero =>
      intro i0
      rfl
  | succ fuel ih =>
      intro i0
      have hf := h i0
      unfold attemptFailsB at hf
      have hf' : payloadHasLines (caughtPayload (beh i0)) = false := by
        simpa using hf
      simp only [runProviderAttempts]
      rw [if_neg (by simp [hf'])]
      exact ih (i0 + 1)

/-- The first attempt that yields a payload with lines stops the loop: the
loop returns that payload and performs no attempt past it. -/
theorem runProviderAttempts_first_success (beh : Nat → AttemptOutcome) :
    ∀ (fuel i0 istar : Nat) (p : LyricsPayload),
      i0 ≤ istar → istar < i0 + fuel →
      (∀ i, i0 ≤ i → i < istar → attemptFailsB (beh i) = true) →
      beh istar = .ok p → p.lines ≠ [] →
      (runProviderAttempts beh fuel i0).1 = some p ∧
      ∀ i ∈ (runProviderAttempts beh fuel i0).2, i ≤ istar := by
  intro fuel
  induction fuel with
  | zero =>
      intro i0 istar p h1 h2 _ _ _
      omega
  | succ fuel ih =>
      intro i0 istar p h1 h2 hfails hok hlines
      by_cases h0 : i0 = istar
      · subst h0
        have hcp : caughtPayload (beh i0) = some p := by
          rw [hok]
          rfl
        have hpl : payloadHasLines (caughtPayload (beh i0)) = true := by
          rw [hcp]
          have hemp : p.lines.isEmpty = false := by
            cases hl : p.lines with
            | nil => exact absurd hl hlines
            | cons a b => rfl
          simp [payloadHasLines, hemp]
        simp only [runProviderAttempts]
        rw [if_pos hpl, hcp]
        refine ⟨rfl, ?_⟩
        intro i hi
        simp only [List.mem_singleton] at hi
        omega
      · have hlt : i0 < istar := Nat.lt_of_le_of_ne h1 h0
        have hih := ih (i0 + 1) istar p (by omega) (by omega)
          (fun i hi1 hi2 => hfails i (by omega) hi2) hok hlines
        have hf0 := hfails i0 (le_refl i0) hlt
        unfold attemptFailsB at hf0
        have hf0' : payloadHasLines (caughtPayload (beh i0)) = false := by
          simpa using hf0
        simp only [runProviderAttempts]
        rw [if_neg (by simp [hf0'])]
        refine ⟨hih.1, ?_⟩
        intro i hi
        simp only [List.mem_cons] at hi
        cases hi with
        | inl h => omega
        | inr h => exact hih.2 i h

/-- Every traced attempt belongs to a provider at or after the loop's
starting index. -/
theorem serviceLoop_trace_mem :
    ∀ (provs : List ProviderModel) (k0 : Nat) (pr : Nat × Nat),
      pr ∈ (serviceLoop provs k0).2 → k0 ≤ pr.1 := by
  intro provs
  induction provs with
  | nil =>
      intro k0 pr hpr
      simp [serviceLoop] at hpr
  | cons q rest ih =>
      intro k0 pr hpr
      simp only [serviceLoop] at hpr
      cases hr : (runProviderAttempts q.behavior (attemptsFor q.name) 0).1 with
      | some pay =>
          rw [hr] at hpr
          simp only [List.mem_map] at hpr
          obtain ⟨i, _, hi⟩ := hpr
          rw [← hi]
      | none =>
          rw [hr] at hpr
          simp only [List.mem_append, List.mem_map] at hpr
          cases hpr with
          | inl h =>
              obtain ⟨i, _, hi⟩ := h
              rw [← hi]
          | inr h =>
              have := ih (k0 + 1) pr h
              omega

/-- Per-provider budget: the trace contains at most `attemptsFor name`
attempts for each provider. -/
theorem serviceLoop_budget :
    ∀ (provs : List ProviderModel) (k0 j : Nat) (hj : j < provs.length),
      (((serviceLoop provs k0).2).filter (fun pr => pr.1 = k0 + j)).length
        ≤ attemptsFor ((provs.get ⟨j, hj⟩).name) := by
  intro provs
  induction provs with
  | nil =>
      intro k0 j hj
      simp at hj
  | cons q rest ih =>
      intro k0 j hj
      simp only [serviceLoop]
      cases hr : (runProviderAttempts q.behavior (attemptsFor q.name) 0).1 with
      | some pay =>
          simp only
          cases j with
          | zero =>
              have hfm : ((runProviderAttempts q.behavior (attemptsFor q.name) 0).2.map
                    (fun i => (k0, i))).filter (fun pr => pr.1 = k0 + 0)
                  = (runProviderAttempts q.behavior (attemptsFor q.name) 0).2.map
                    (fun i => (k0, i)) := by
                apply List.filter_eq_self.2
                intro pr hpr
                simp only [List.mem_map] at hpr
                obtain ⟨i, _, hi⟩ := hpr
                rw [← hi]
                simp
              rw [hfm]
              simp only [List.length_map, List.get_cons_zero]
              exact runProviderAttempts_trace_length q.behavior _ 0
          | succ j' =>
              have hfm : ((runProviderAttempts q.behavior (attemptsFor q.name) 0).2.map
                    (fun i => (k0, i))).filter (fun pr => pr.1 = k0 + (j' + 1)) = [] := by
                apply List.filter_eq_nil_iff.2
                intro pr hpr
                simp only [List.mem_map] at hpr
                obtain ⟨i, _, hi⟩ := hpr
                rw [← hi]
                simp only [decide_eq_true_eq]
                omega
              rw [hfm]
              simp
      | none =>
          simp only
          rw [List.filter_append, List.length_append]
          cases j with
          | zero =>
              have hf2 : ((serviceLoop rest (k0 + 1)).2.filter
                  (fun pr => pr.1 = k0 + 0)).length = 0 := by
                rw [List.length_eq_zero]
                apply List.filter_eq_nil_iff.2
                intro pr hpr
                have := serviceLoop_trace_mem rest (k0 + 1) pr hpr
                simp only [decide_eq_true_eq]
                omega
              rw [hf2]
              have hfm : ((runProviderAttempts q.behavior (attemptsFor q.name) 0).2.map
                    (fun i => (k0, i))).filter (fun pr => pr.1 = k0 + 0)
                  = (runProviderAttempts q.behavior (attemptsFor q.name) 0).2.map
                    (fun i => (k0, i)) := by
                apply List.filter_eq_self.2
                intro pr hpr
                simp only [List.mem_map] at hpr
                obtain ⟨i, _, hi⟩ := hpr
                rw [← hi]
                simp
              rw [hfm]
              simp only [List.length_map, List.get_cons_zero, Nat.add_zero]
              exact runProviderAttempts_trace_length q.behavior _ 0
          | succ j' =>
              have hfm : ((runProviderAttempts q.behavior (attemptsFor q.name) 0).2.map
                    (fun i => (k0, i))).filter (fun pr => pr.1 = k0 + (j' + 1)) = [] := by
                apply List.filter_eq_nil_iff.2
                intro pr hpr
                simp only [List.mem_map] at hpr
                obtain ⟨i, _, hi⟩ := hpr
                rw [← hi]
                simp only [decide_eq_true_eq]
                omega
              rw [hfm]
              simp only [List.length_nil, Nat.zero_add, List.get_cons_succ]
              have hj' : j' < rest.length := by
                simp only [List.length_cons] at hj
                omega
              have := ih (k0 + 1) j' hj'
              have harith : k0 + 1 + j' = k0 + (j' + 1) := by omega
              rw [harith] at this
              exact this

/-- If every provider up to index `k` fails all its attempts and provider
`k`'s first usable attempt is `istar`, the loop returns that payload and
tries nothing later. -/
theorem serviceLoop_first_success :
    ∀ (provs : List ProviderModel) (k0 k : Nat) (hk : k < provs.length)
      (istar : Nat) (p : LyricsPayload),
      (∀ j (hj : j < provs.length), j < k →
          ∀ i, attemptFailsB ((provs.get ⟨j, hj⟩).behavior i) = true) →
      istar < attemptsFor ((provs.get ⟨k, hk⟩).name) →
      (∀ i, i < istar → attemptFailsB ((provs.get ⟨k, hk⟩).behavior i) = true) →
      (provs.get ⟨k, hk⟩).behavior istar = .ok p →
      p.lines ≠ [] →
      (serviceLoop provs k0).1 = some p.to_api_dict ∧
      ∀ pr ∈ (serviceLoop provs k0).2,
        pr.1 < k0 + k ∨ (pr.1 = k0 + k ∧ pr.2 ≤ istar) := by
  intro provs
  induction provs with
  | nil =>
      intro k0 k hk
      simp at hk
  | cons q rest ih =>
      intro k0 k hk istar p hbefore hbudget hfails hok hlines
      cases k with
      | zero =>
          have hb : istar < attemptsFor q.name := hbudget
          have hrun := runProviderAttempts_first_success q.behavior
            (attemptsFor q.name) 0 istar p (Nat.zero_le istar) (by omega)
            (fun i _ hi2 => hfails i hi2) hok hlines
          simp only [serviceLoop]
          rw [hrun.1]
          refine ⟨rfl, ?_⟩
          intro pr hpr
          simp only [List.mem_map] at hpr
          obtain ⟨i, hi, hpr2⟩ := hpr
          right
          rw [← hpr2]
          exact ⟨by omega, hrun.2 i hi⟩
      | succ k' =>
          have hq : ∀ i, attemptFailsB (q.behavior i) = true := by
            intro i
            exact hbefore 0 (by simp) (by omega) i
          have hnone := runProviderAttempts_all_fail q.behavior hq
            (attemptsFor q.name) 0
          simp only [serviceLoop]
          rw [hnone]
          have hk' : k' < rest.length := by
            simp only [List.length_cons] at hk
            omega
          have hih := ih (k0 + 1) k' hk' istar p
            (fun j hj hjk i =>
              hbefore (j + 1) (by simp only [List.length_cons]; omega) (by omega) i)
            hbudget hfails hok hlines
          refine ⟨hih.1, ?_⟩
          intro pr hpr
          simp only [List.mem_append, List.mem_map] at hpr
          cases hpr with
          | inl h =>
              obtain ⟨i, _, hi⟩ := h
              left
              rw [← hi]
              omega
          | inr h =>
              have := hih.2 pr h
              cases this with
              | inl h2 => left; omega
              | inr h2 => right; exact ⟨by omega, h2.2⟩

/-- C2 (confirmed): (i) across any run, each provider is attempted at most
`attemptsFor` its class name times; (ii) that budget is 3 (1 initial + 2
retries), except exactly 1 when the class name contains `'UtaNet'`; (iii)
when the providers before index `k` fail all their attempts and provider
`k`'s attempt `istar` is its first yielding a payload with at least one
line, the service returns that payload's `to_api_dict()` content
immediately: the trace contains nothing after provider `k`, and nothing of
provider `k` past attempt `istar`. -/
theorem service_retry_and_first_success (providers : List ProviderModel) :
    (∀ j (hj : j < providers.length),
        ((serviceTrace providers).filter (fun pr => pr.1 = j)).length
          ≤ attemptsFor ((providers.get ⟨j, hj⟩).name)) ∧
    (∀ name, attemptsFor name = if strContainsSub name "UtaNet" then 1 else 3) ∧
    (∀ k (hk : k < providers.length) (istar : Nat) (p : LyricsPayload),
        (∀ j (hj : j < providers.length), j < k →
            ∀ i, attemptFailsB ((providers.get ⟨j, hj⟩).behavior i) = true) →
        istar < attemptsFor ((providers.get ⟨k, hk⟩).name) →
        (∀ i, i < istar → attemptFailsB ((providers.get ⟨k, hk⟩).behavior i) = true) →
        (providers.get ⟨k, hk⟩).behavior istar = .ok p →
        p.lines ≠ [] →
        service_get_lyrics providers = some p.to_api_dict ∧
        ∀ pr ∈ serviceTrace providers, pr.1 < k ∨ (pr.1 = k ∧ pr.2 ≤ istar)) := by
  refine ⟨?_, ?_, ?_⟩
  · intro j hj
    have := serviceLoop_budget providers 0 j hj
    simpa using this
  · intro name
    unfold attemptsFor retryDelaysMs
    split_ifs <;> rfl
  · intro k hk istar p hbefore hbudget hfails hok hlines
    have h := serviceLoop_first_success providers 0 k hk istar p
      hbefore hbudget hfails hok hlines
    refine ⟨h.1, ?_⟩
    intro pr hpr
    have := h.2 pr hpr
    simpa using this

/-- If every provider fails every attempt (raises, times out, returns None,
or returns a line-less payload), the loop yields nothing. -/
theorem serviceLoop_all_fail :
    ∀ (provs : List ProviderModel) (k0 : Nat),
      (∀ pm ∈ provs, ∀ i, attemptFailsB (pm.behavior i) = true) →
      (serviceLoop provs k0).1 = none := by
  intro provs
  induction provs with
  | nil =>
      intro k0 _
      rfl
  | cons q rest ih =>
      intro k0 h
      have hq := runProviderAttempts_all_fail q.behavior
        (h q (List.mem_cons_self q rest)) (attemptsFor q.name) 0
      simp only [serviceLoop]
      rw [hq]
      exact ih (k0 + 1) (fun pm hpm i => h pm (List.mem_cons_of_mem q hpm) i)

/-- C3 (confirmed): the service result is a total value for every provider
behaviour — a raised exception and a timeout are caught (`caughtPayload`
maps them, like an explicit `None` return, to "no payload") — and when every
attempt of every provider fails in any of these ways, the service's only
signal is returning `None` after the full budget is exhausted. -/
theorem service_exhaustion_returns_none (providers : List ProviderModel)
    (h : ∀ pm ∈ providers, ∀ i, attemptFailsB (pm.behavior i) = true) :
    service_get_lyrics providers = none ∧
    caughtPayload .raised = none ∧ caughtPayload .timedOut = none ∧
    caughtPayload .returnedNone = none :=
  ⟨serviceLoop_all_fail providers 0 h, rfl, rfl, rfl⟩

/-- Witness for C2: Syrics raises on all 3 attempts, LRCLib succeeds on its
second attempt (index 1) with one line, Uta-Net is never reached: the
service returns the LRCLib payload's api dict and the trace never goes past
provider 1, attempt 1. -/
theorem service_retry_and_first_success_witness :
    service_get_lyrics
        [ { name := "SyricsLyricsProvider", behavior := fun _ => .raised },
          { name := "LRCLibLyricsProvider", behavior := fun i =>
              if i = 1 then .ok ⟨"en", [ ⟨0, "x"⟩ ], true⟩
              else .returnedNone },
          { name := "UtaNetLyricsProvider", behavior := fun _ => .timedOut } ]
      = some (LyricsPayload.to_api_dict ⟨"en", [ ⟨0, "x"⟩ ], true⟩) ∧
    ∀ pr ∈ serviceTrace
        [ { name := "SyricsLyricsProvider", behavior := fun _ => .raised },
          { name := "LRCLibLyricsProvider", behavior := fun i =>
              if i = 1 then .ok ⟨"en", [ ⟨0, "x"⟩ ], true⟩
              else .returnedNone },
          { name := "UtaNetLyricsProvider", behavior := fun _ => .timedOut } ],
      pr.1 < 1 ∨ (pr.1 = 1 ∧ pr.2 ≤ 1) := by
  refine (service_retry_and_first_success _).2.2 1 (by decide) 1 _ ?_ (by decide) ?_ ?_ ?_
  · intro j hj hlt i
    cases j with
    | zero => rfl
    | succ n => exact absurd hlt (by omega)
  · intro i hi
    cases i with
    | zero => rfl
    | succ n => exact absurd hi (by omega)
  · rfl
  · decide

/-- Witness for C3: four providers covering all failure modes (raising,
returning a line-less payload, timing out, returning None) yield `None`. -/
theorem service_exhaustion_returns_none_witness :
    service_get_lyrics
        [ { name := "SyricsLyricsProvider", behavior := fun _ => .raised },
          { name := "LRCLibLyricsProvider", behavior := fun _ =>
              .ok ⟨"en", [], true⟩ },
          { name := "UtaNetLyricsProvider", behavior := fun _ => .timedOut },
          { name := "OtherProvider", behavior := fun _ => .returnedNone } ]
      = none ∧
    caughtPayload .raised = none ∧ caughtPayload .timedOut = none ∧
    caughtPayload .returnedNone = none := by
  refine service_exhaustion_returns_none _ ?_
  intro pm hpm i
  simp only [List.mem_cons, List.not_mem_nil, or_false] at hpm
  rcases hpm with rfl | rfl | rfl | rfl <;> rfl

end SpotifyLyrics
